import Mathlib

/-!
Verification of the named-parameter templating engine and the insert / fetch /
update / delete statement logic of the toutago-datamapper PostgreSQL adapter
(`src/adapter.go`).  Go maps are modelled as association lists, Go slices as
lists, and the database driver as an explicit oracle function; errors are
modelled with `Except`.
-/

namespace PgAdapter

/-- Association-list model of a Go `map[string]interface\x7b\x7d` lookup:
returns the first binding for the key, `none` when the key is absent
(Go's `val, ok := params[name]` with `ok = false`). -/
def lookupParam {V : Type} : List (String × V) → String → Option V
  | [], _ => none
  | (k, v) :: rest, name => if k = name then some v else lookupParam rest name

/-- Placeholder-name scan of `extractArgs` (adapter.go lines 413-426): walk the
characters with the `inBrace` flag and the name accumulated so far
(`paramName`), emitting a completed name at each `\x7d` seen while inside a
placeholder; a `\x7b` always (re)opens a placeholder and resets the name. -/
def scanNames : List Char → Bool → String → List String
  | [], _, _ => []
  | ch :: rest, inBrace, nameAcc =>
    if ch = '\x7b' then scanNames rest true ""
    else if ch = '\x7d' ∧ inBrace = true then nameAcc :: scanNames rest false nameAcc
    else if inBrace = true then scanNames rest inBrace (nameAcc.push ch)
    else scanNames rest inBrace nameAcc

/-- The completed placeholder names of a template, in left-to-right occurrence
order (first loop of `extractArgs`, adapter.go lines 413-426). -/
def paramNames (query : String) : List String := scanNames query.data false ""

/-- Second loop of `extractArgs` (adapter.go lines 429-435): look each collected
name up in the parameter map, failing with the Go error text on the first
missing one, otherwise collecting the values in order. -/
def collectArgs {V : Type} : List String → List (String × V) → Except String (List V)
  | [], _ => .ok []
  | name :: rest, params =>
    match lookupParam params name with
    | none => .error ("postgresql: missing parameter: " ++ name)
    | some v =>
      match collectArgs rest params with
      | .error e => .error e
      | .ok args => .ok (v :: args)

/-- `extractArgs` (adapter.go lines 409-438). -/
def extractArgs {V : Type} (query : String) (params : List (String × V)) :
    Except String (List V) :=
  collectArgs (paramNames query) params

/-- Character loop of `replaceNamedParams` (adapter.go lines 446-456): a `\x7b`
emits the next positional marker and opens a placeholder, a `\x7d` inside a
placeholder closes it, characters inside a placeholder are dropped, characters
outside are copied verbatim. -/
def replaceChars : List Char → Bool → Nat → String
  | [], _, _ => ""
  | ch :: rest, inBrace, idx =>
    if ch = '\x7b' then "$" ++ toString idx ++ replaceChars rest true (idx + 1)
    else if ch = '\x7d' ∧ inBrace = true then replaceChars rest false idx
    else if inBrace = true then replaceChars rest inBrace idx
    else String.singleton ch ++ replaceChars rest inBrace idx

/-- `replaceNamedParams` (adapter.go lines 441-459). -/
def replaceNamedParams (query : String) : String := replaceChars query.data false 1

/-- A piece of the translated statement: either a literal character copied
verbatim or an emitted positional marker `$k`. -/
inductive Piece where
  | lit : Char → Piece
  | marker : Nat → Piece
deriving DecidableEq

/-- Render one piece as the text `replaceNamedParams` produces for it. -/
def renderPiece : Piece → String
  | .lit c => String.singleton c
  | .marker k => "$" ++ toString k

/-- Concatenation of a list of strings. -/
def concatAll : List String → String
  | [] => ""
  | s :: rest => s ++ concatAll rest

/-- Instrumented form of the `replaceNamedParams` loop: the same scan, recording
each output as a `Piece` instead of flat text. -/
def pieceChars : List Char → Bool → Nat → List Piece
  | [], _, _ => []
  | ch :: rest, inBrace, idx =>
    if ch = '\x7b' then .marker idx :: pieceChars rest true (idx + 1)
    else if ch = '\x7d' ∧ inBrace = true then pieceChars rest false idx
    else if inBrace = true then pieceChars rest inBrace idx
    else .lit ch :: pieceChars rest inBrace idx

/-- The pieces of the translated statement for a template. -/
def piecesOf (t : String) : List Piece := pieceChars t.data false 1

/-- The marker number carried by a piece, if it is a marker. -/
def markerNum : Piece → Option Nat
  | .lit _ => none
  | .marker k => some k

/-- The positional markers of the translated statement, in order of
appearance. -/
def markerList (t : String) : List Nat := (piecesOf t).filterMap markerNum

/-- Brace-well-formedness scan: `true` when every `\x7b` is closed by a `\x7d`
before any further `\x7b` or the end of the template. -/
def wfScan : List Char → Bool → Bool
  | [], inBrace => !inBrace
  | ch :: rest, inBrace =>
    if ch = '\x7b' then !inBrace && wfScan rest true
    else if ch = '\x7d' then wfScan rest false
    else wfScan rest inBrace

/-- A template is brace-well-formed when every `\x7b` is closed before the next
`\x7b` or end of string. -/
def wellFormed (t : String) : Bool := wfScan t.data false

/-- `replaceNamedParams` is the rendering of its pieces. -/
theorem replaceChars_eq_render (cs : List Char) :
    ∀ b i, replaceChars cs b i = concatAll ((pieceChars cs b i).map renderPiece) := by
  induction cs with
  | nil => intro b i; simp [replaceChars, pieceChars, concatAll]
  | cons ch rest ih =>
    intro b i
    by_cases h1 : ch = '\x7b'
    · simp [replaceChars, pieceChars, h1, concatAll, renderPiece, ih, String.append_assoc]
    · by_cases h2 : ch = '\x7d' ∧ b = true
      · simp [replaceChars, pieceChars, h1, h2, ih]
      · by_cases h3 : b = true
        · have h2c : ¬ ch = '\x7d' := fun hcontra => h2 ⟨hcontra, h3⟩
          simp [replaceChars, pieceChars, h1, h2c, h3, ih]
        · simp [replaceChars, pieceChars, h1, h2, h3, concatAll, renderPiece, ih]

/-- The translated statement is exactly the concatenation of its pieces. -/
theorem replaceNamedParams_eq_render (t : String) :
    replaceNamedParams t = concatAll ((piecesOf t).map renderPiece) :=
  replaceChars_eq_render t.data false 1

/-- The markers emitted by the piece scan are consecutive, one per `\x7b`. -/
theorem pieceChars_markers (cs : List Char) :
    ∀ b i, (pieceChars cs b i).filterMap markerNum = List.range' i (cs.count '\x7b') := by
  induction cs with
  | nil => intro b i; simp [pieceChars, List.count_nil]
  | cons ch rest ih =>
    intro b i
    by_cases h1 : ch = '\x7b'
    · subst h1
      simp [pieceChars, List.count_cons, ih, markerNum, List.range']
    · have hc : (ch :: rest).count '\x7b' = rest.count '\x7b' := by
        simp [List.count_cons, h1]
      by_cases h2 : ch = '\x7d' ∧ b = true
      · simp [pieceChars, h1, h2, ih, hc]
      · by_cases h3 : b = true
        · have h2c : ¬ ch = '\x7d' := fun hcontra => h2 ⟨hcontra, h3⟩
          simp [pieceChars, h1, h2c, h3, ih, hc]
        · simp [pieceChars, h1, h2, h3, ih, markerNum, hc]

/-- The marker list of a template is `1..n` where `n` is its `\x7b` count. -/
theorem markerList_eq_range' (t : String) :
    markerList t = List.range' 1 (t.data.count '\x7b') :=
  pieceChars_markers t.data false 1

/-- On a well-formed scan, the number of emitted names is the number of
`\x7b` characters (plus one pending placeholder when starting inside one). -/
theorem scanNames_length_of_wf (cs : List Char) :
    ∀ b nameAcc, wfScan cs b = true →
      (scanNames cs b nameAcc).length = cs.count '\x7b' + (bif b then 1 else 0) := by
  induction cs with
  | nil =>
    intro b nameAcc hwf
    simp [wfScan] at hwf
    simp [scanNames, hwf, List.count_nil]
  | cons ch rest ih =>
    intro b nameAcc hwf
    by_cases h1 : ch = '\x7b'
    · subst h1
      simp [wfScan] at hwf
      obtain ⟨hb, hrest⟩ := hwf
      simp [scanNames, List.count_cons, hb, ih _ _ hrest]
    · have hc : (ch :: rest).count '\x7b' = rest.count '\x7b' := by
        simp [List.count_cons, h1]
      by_cases h2 : ch = '\x7d' ∧ b = true
      · obtain ⟨h2c, h2b⟩ := h2
        subst h2c
        have hwf' : wfScan rest false = true := by simpa [wfScan] using hwf
        simp [scanNames, h1, h2b, ih _ _ hwf', hc]
      · by_cases h3 : b = true
        · have h2c : ¬ ch = '\x7d' := by
            intro hcontra
            exact h2 ⟨hcontra, h3⟩
          subst h3
          have hwf' : wfScan rest true = true := by
            simpa [wfScan, h1, h2c] using hwf
          simp [scanNames, h1, h2c, ih _ _ hwf', hc]
        · have hb : b = false := by simpa using h3
          subst hb
          have hwf' : wfScan rest false = true := by
            by_cases h2c : ch = '\x7d'
            · simpa [wfScan, h1, h2c] using hwf
            · simpa [wfScan, h1, h2c] using hwf
          simp [scanNames, h1, h2, ih _ _ hwf', hc]

/-- `collectArgs` succeeds when every name is present, and the resulting vector
matches the names pointwise in order. -/
theorem collectArgs_all_some {V : Type} (names : List String) (p : List (String × V))
    (h : ∀ n ∈ names, (lookupParam p n).isSome = true) :
    ∃ args, collectArgs names p = .ok args ∧
      List.Forall₂ (fun n v => lookupParam p n = some v) names args := by
  induction names with
  | nil => exact ⟨[], rfl, List.Forall₂.nil⟩
  | cons name rest ih =>
    obtain ⟨v, hv⟩ := Option.isSome_iff_exists.mp (h name (by simp))
    obtain ⟨args, hargs, hall⟩ := ih (fun n hn => h n (by simp [hn]))
    exact ⟨v :: args, by simp [collectArgs, hv, hargs], List.Forall₂.cons hv hall⟩

/-- `collectArgs` fails exactly when some name is absent from the map. -/
theorem collectArgs_error_iff {V : Type} (names : List String) (p : List (String × V)) :
    (∃ e, collectArgs names p = .error e) ↔ ∃ n ∈ names, lookupParam p n = none := by
  induction names with
  | nil => simp [collectArgs]
  | cons name rest ih =>
    cases hv : lookupParam p name with
    | none =>
      simp only [collectArgs, hv]
      constructor
      · intro _; exact ⟨name, by simp, hv⟩
      · intro _; exact ⟨_, rfl⟩
    | some v =>
      cases hrest : collectArgs rest p with
      | error e =>
        simp only [collectArgs, hv, hrest]
        constructor
        · intro _
          obtain ⟨n, hn, hnone⟩ := ih.mp ⟨e, hrest⟩
          exact ⟨n, by simp [hn], hnone⟩
        · intro _; exact ⟨e, rfl⟩
      | ok args =>
        simp only [collectArgs, hv, hrest]
        constructor
        · rintro ⟨e, he⟩; cases he
        · rintro ⟨n, hn, hnone⟩
          rcases List.mem_cons.mp hn with hn | hn
          · subst hn; rw [hv] at hnone; cases hnone
          · obtain ⟨e, he⟩ := ih.mpr ⟨n, hn, hnone⟩
            rw [hrest] at he; cases he

/-- When the first missing name (in order) is `n`, `collectArgs` fails with the
Go error text naming `n`. -/
theorem collectArgs_first_missing {V : Type} (names : List String) (p : List (String × V))
    (n : String) (h : names.find? (fun m => (lookupParam p m).isNone) = some n) :
    collectArgs names p = .error ("postgresql: missing parameter: " ++ n) := by
  induction names with
  | nil => cases h
  | cons name rest ih =>
    cases hv : lookupParam p name with
    | none =>
      rw [List.find?_cons_of_pos _ (by simp [hv])] at h
      cases h
      simp [collectArgs, hv]
    | some v =>
      rw [List.find?_cons_of_neg _ (by simp [hv])] at h
      simp [collectArgs, hv, ih h]

/-- `collectArgs` returns one value per name. -/
theorem collectArgs_ok_length {V : Type} (names : List String) (p : List (String × V))
    (args : List V) (h : collectArgs names p = .ok args) : args.length = names.length := by
  induction names generalizing args with
  | nil =>
    simp only [collectArgs] at h
    cases h; rfl
  | cons name rest ih =>
    simp only [collectArgs] at h
    cases hv : lookupParam p name with
    | none => rw [hv] at h; cases h
    | some v =>
      rw [hv] at h
      cases hrest : collectArgs rest p with
      | error e => rw [hrest] at h; cases h
      | ok args' =>
        rw [hrest] at h
        cases h
        simp [ih args' hrest]

/-- A scan that sees no opening brace emits no name. -/
theorem scanNames_of_no_open (cs : List Char) (h : ('\x7b' : Char) ∉ cs) :
    ∀ nameAcc, scanNames cs false nameAcc = [] := by
  induction cs with
  | nil => intro nameAcc; rfl
  | cons ch rest ih =>
    intro nameAcc
    have h1 : ¬ ch = '\x7b' := fun hc => h (hc ▸ List.mem_cons_self ch rest)
    have hrest : ('\x7b' : Char) ∉ rest := fun hc => h (List.mem_cons_of_mem ch hc)
    simp [scanNames, h1, ih hrest]

/-- A scan that sees no closing brace emits no name, from any state. -/
theorem scanNames_of_no_close (cs : List Char) (h : ('\x7d' : Char) ∉ cs) :
    ∀ b nameAcc, scanNames cs b nameAcc = [] := by
  induction cs with
  | nil => intro b nameAcc; rfl
  | cons ch rest ih =>
    intro b nameAcc
    have h2 : ¬ ch = '\x7d' := fun hc => h (hc ▸ List.mem_cons_self ch rest)
    have hrest : ('\x7d' : Char) ∉ rest := fun hc => h (List.mem_cons_of_mem ch hc)
    by_cases h1 : ch = '\x7b'
    · simp [scanNames, h1, ih hrest]
    · by_cases h3 : b = true
      · simp [scanNames, h1, h2, h3, ih hrest]
      · simp [scanNames, h1, h2, h3, ih hrest]

/-- Appending a stray opening brace and a close-free tail does not change the
emitted names. -/
theorem scanNames_stray (cs : List Char) :
    ∀ fs b nameAcc, ('\x7d' : Char) ∉ fs →
      scanNames (cs ++ '\x7b' :: fs) b nameAcc = scanNames cs b nameAcc := by
  induction cs with
  | nil =>
    intro fs b nameAcc hfs
    simp only [List.nil_append, scanNames, if_pos rfl]
    exact scanNames_of_no_close fs hfs true ""
  | cons ch rest ih =>
    intro fs b nameAcc hfs
    by_cases h1 : ch = '\x7b'
    · simp [scanNames, h1, ih fs _ _ hfs]
    · by_cases h2 : ch = '\x7d' ∧ b = true
      · simp [scanNames, h1, h2, ih fs _ _ hfs]
      · by_cases h3 : b = true
        · have h2c : ¬ ch = '\x7d' := fun hc => h2 ⟨hc, h3⟩
          simp [scanNames, h1, h2c, h3, ih fs _ _ hfs]
        · simp [scanNames, h1, h2, h3, ih fs _ _ hfs]

/-- Characters inside an open placeholder that are not braces produce no
output. -/
theorem replaceChars_all_inside (fs : List Char)
    (h : ∀ c ∈ fs, c ≠ '\x7b' ∧ c ≠ '\x7d') : ∀ i, replaceChars fs true i = "" := by
  induction fs with
  | nil => intro i; rfl
  | cons ch rest ih =>
    intro i
    obtain ⟨h1, h2⟩ := h ch (by simp)
    have hrest := fun c hc => h c (List.mem_cons_of_mem ch hc)
    simp [replaceChars, h1, h2, ih hrest]

/-- On a well-formed prefix, a stray opening brace emits the next marker and a
brace-free tail after it is dropped entirely. -/
theorem replaceChars_stray (cs : List Char) :
    ∀ fs b i, wfScan cs b = true → (∀ c ∈ fs, c ≠ '\x7b' ∧ c ≠ '\x7d') →
      replaceChars (cs ++ '\x7b' :: fs) b i =
        replaceChars cs b i ++ ("$" ++ toString (i + cs.count '\x7b')) := by
  induction cs with
  | nil =>
    intro fs b i hwf hfs
    have hb : b = false := by simpa [wfScan] using hwf
    subst hb
    simp [replaceChars, replaceChars_all_inside fs hfs, List.count_nil]
  | cons ch rest ih =>
    intro fs b i hwf hfs
    by_cases h1 : ch = '\x7b'
    · subst h1
      simp [wfScan] at hwf
      obtain ⟨hb, hrest⟩ := hwf
      simp [replaceChars, List.count_cons, ih fs _ _ hrest hfs, String.append_assoc]
      ring_nf
    · have hc : (ch :: rest).count '\x7b' = rest.count '\x7b' := by
        simp [List.count_cons, h1]
      by_cases h2 : ch = '\x7d' ∧ b = true
      · obtain ⟨h2c, h2b⟩ := h2
        subst h2c; subst h2b
        have hwf' : wfScan rest false = true := by simpa [wfScan, h1] using hwf
        simp [replaceChars, h1, ih fs _ _ hwf' hfs, hc]
      · by_cases h3 : b = true
        · subst h3
          have h2c : ¬ ch = '\x7d' := fun hcontra => h2 ⟨hcontra, rfl⟩
          have hwf' : wfScan rest true = true := by simpa [wfScan, h1, h2c] using hwf
          simp [replaceChars, h1, h2c, ih fs _ _ hwf' hfs, hc]
        · have hb : b = false := by simpa using h3
          subst hb
          have hwf' : wfScan rest false = true := by
            by_cases h2c : ch = '\x7d'
            · simpa [wfScan, h1, h2c] using hwf
            · simpa [wfScan, h1, h2c] using hwf
          simp [replaceChars, h1, h2, ih fs _ _ hwf' hfs, hc, String.append_assoc]

/-- Piece-level version of `replaceChars_stray`. -/
theorem pieceChars_stray (cs : List Char) :
    ∀ fs b i, wfScan cs b = true → (∀ c ∈ fs, c ≠ '\x7b' ∧ c ≠ '\x7d') →
      pieceChars (cs ++ '\x7b' :: fs) b i =
        pieceChars cs b i ++ [Piece.marker (i + cs.count '\x7b')] := by
  induction cs with
  | nil =>
    intro fs b i hwf hfs
    have hb : b = false := by simpa [wfScan] using hwf
    subst hb
    have hinside : ∀ j, pieceChars fs true j = [] := by
      clear hwf
      induction fs with
      | nil => intro j; rfl
      | cons ch rest ih =>
        intro j
        obtain ⟨h1, h2⟩ := hfs ch (by simp)
        have hrest := fun c hc => hfs c (List.mem_cons_of_mem ch hc)
        simp [pieceChars, h1, h2, ih hrest]
    simp [pieceChars, hinside, List.count_nil]
  | cons ch rest ih =>
    intro fs b i hwf hfs
    by_cases h1 : ch = '\x7b'
    · subst h1
      simp [wfScan] at hwf
      obtain ⟨hb, hrest⟩ := hwf
      simp [pieceChars, List.count_cons, ih fs _ _ hrest hfs]
      ring_nf
    · have hc : (ch :: rest).count '\x7b' = rest.count '\x7b' := by
        simp [List.count_cons, h1]
      by_cases h2 : ch = '\x7d' ∧ b = true
      · obtain ⟨h2c, h2b⟩ := h2
        subst h2c; subst h2b
        have hwf' : wfScan rest false = true := by simpa [wfScan, h1] using hwf
        simp [pieceChars, h1, ih fs _ _ hwf' hfs, hc]
      · by_cases h3 : b = true
        · subst h3
          have h2c : ¬ ch = '\x7d' := fun hcontra => h2 ⟨hcontra, rfl⟩
          have hwf' : wfScan rest true = true := by simpa [wfScan, h1, h2c] using hwf
          simp [pieceChars, h1, h2c, ih fs _ _ hwf' hfs, hc]
        · have hb : b = false := by simpa using h3
          subst hb
          have hwf' : wfScan rest false = true := by
            by_cases h2c : ch = '\x7d'
            · simpa [wfScan, h1, h2c] using hwf
            · simpa [wfScan, h1, h2c] using hwf
          simp [pieceChars, h1, h2, ih fs _ _ hwf' hfs, hc]

/-- The characters of a stray-brace template decompose as expected. -/
theorem data_stray (u frag : String) :
    (u ++ "\x7b" ++ frag).data = u.data ++ '\x7b' :: frag.data := by
  simp [String.data_append]

/-- With no opening brace the translator copies the input verbatim. -/
theorem replaceChars_of_no_open (cs : List Char) (h : ('\x7b' : Char) ∉ cs) :
    ∀ i, replaceChars cs false i = String.mk cs := by
  induction cs with
  | nil => intro i; rfl
  | cons ch rest ih =>
    intro i
    have h1 : ¬ ch = '\x7b' := fun hc => h (hc ▸ List.mem_cons_self ch rest)
    have hrest : ('\x7b' : Char) ∉ rest := fun hc => h (List.mem_cons_of_mem ch hc)
    have hdata : (String.singleton ch ++ String.mk rest).data = ch :: rest := by
      simp [String.data_append, String.singleton]
    have hstep : replaceChars (ch :: rest) false i = String.singleton ch ++ replaceChars rest false i := by
      simp [replaceChars, h1]
    rw [hstep, ih hrest]
    exact String.ext hdata

/-- On a well-formed template the number of completed placeholder names is the
number of opening braces. -/
theorem paramNames_length_of_wf (t : String) (hwf : wellFormed t = true) :
    (paramNames t).length = t.data.count '\x7b' := by
  simpa [paramNames] using scanNames_length_of_wf t.data false "" hwf

/-- Claim C1 (amended to brace-well-formed templates): for every template in
which each opening brace is closed before the next opening brace or end of
string, and any parameter map covering its placeholder names, the translated
statement is the rendering of its pieces, the markers are numbered `1..n` in
appearance order with `n` equal to the length of the extracted argument vector,
and the argument vector matches the placeholder occurrences in order. -/
theorem claim_C1 {V : Type} (t : String) (p : List (String × V))
    (hwf : wellFormed t = true)
    (hcov : ∀ n ∈ paramNames t, (lookupParam p n).isSome = true) :
    ∃ args, extractArgs t p = Except.ok args ∧
      replaceNamedParams t = concatAll ((piecesOf t).map renderPiece) ∧
      markerList t = List.range' 1 args.length ∧
      (markerList t).length = args.length ∧
      List.Forall₂ (fun n v => lookupParam p n = some v) (paramNames t) args := by
  obtain ⟨args, hok, hall⟩ := collectArgs_all_some (paramNames t) p hcov
  have hlen : (paramNames t).length = args.length := hall.length_eq
  have hcount : (paramNames t).length = t.data.count '\x7b' := paramNames_length_of_wf t hwf
  refine ⟨args, hok, replaceNamedParams_eq_render t, ?_, ?_, hall⟩
  · rw [markerList_eq_range', ← hcount, hlen]
  · rw [markerList_eq_range', List.length_range', ← hcount, hlen]

/-- Witness for claim C1 at a concrete well-formed template and covering map. -/
theorem claim_C1_witness :
    ∃ args, extractArgs "SELECT * FROM t WHERE id = \x7bid\x7d" [("id", (3 : Nat))] =
        Except.ok args ∧
      replaceNamedParams "SELECT * FROM t WHERE id = \x7bid\x7d" =
        concatAll ((piecesOf "SELECT * FROM t WHERE id = \x7bid\x7d").map renderPiece) ∧
      markerList "SELECT * FROM t WHERE id = \x7bid\x7d" = List.range' 1 args.length ∧
      (markerList "SELECT * FROM t WHERE id = \x7bid\x7d").length = args.length ∧
      List.Forall₂ (fun n v => lookupParam [("id", (3 : Nat))] n = some v)
        (paramNames "SELECT * FROM t WHERE id = \x7bid\x7d") args :=
  claim_C1 "SELECT * FROM t WHERE id = \x7bid\x7d" [("id", 3)] (by decide) (by decide)

/-- Counterexample to claim C1 as stated: the template consisting of a single
unterminated opening brace has no completed placeholder name, so the empty map
covers every placeholder name, `extractArgs` returns zero values, yet the
translated statement contains one positional marker. -/
theorem claim_C1_counterexample :
    paramNames "\x7b" = ([] : List String) ∧
    extractArgs (V := Nat) "\x7b" [] = Except.ok [] ∧
    replaceNamedParams "\x7b" = "$1" ∧
    (markerList "\x7b").length ≠ ([] : List Nat).length :=
  ⟨rfl, rfl, rfl, by decide⟩

/-- Claim C2: repeated placeholder names are not coalesced; the template
`\x7ba\x7d\x7bb\x7d\x7ba\x7d` with map `a:1, b:2` extracts `[1, 2, 1]` and
translates to `$1$2$3`. -/
theorem claim_C2 :
    extractArgs "\x7ba\x7d\x7bb\x7d\x7ba\x7d" [("a", (1 : Nat)), ("b", 2)] =
      Except.ok [1, 2, 1] ∧
    replaceNamedParams "\x7ba\x7d\x7bb\x7d\x7ba\x7d" = "$1$2$3" :=
  ⟨rfl, rfl⟩

/-- Claim C3: `extractArgs` fails exactly when some completed placeholder name
is absent from the parameter map, the error names the first missing identifier
in occurrence order, and no argument vector accompanies the error. -/
theorem claim_C3 {V : Type} (t : String) (p : List (String × V)) :
    ((∃ e, extractArgs t p = Except.error e) ↔
      ∃ n ∈ paramNames t, lookupParam p n = none) ∧
    (∀ n, (paramNames t).find? (fun m => (lookupParam p m).isNone) = some n →
      extractArgs t p = Except.error ("postgresql: missing parameter: " ++ n)) :=
  ⟨collectArgs_error_iff (paramNames t) p,
   fun n h => collectArgs_first_missing (paramNames t) p n h⟩

/-- Witness for claim C3: the spec's example template with an empty map fails
naming `id`. -/
theorem claim_C3_witness :
    extractArgs (V := Nat) "SELECT * FROM t WHERE id = \x7bid\x7d" [] =
      Except.error ("postgresql: missing parameter: " ++ "id") :=
  (claim_C3 "SELECT * FROM t WHERE id = \x7bid\x7d" []).2 "id" (by decide)

/-- Claim C4: a template with no opening brace is translated unchanged and
extracts an empty argument vector without error, for any parameter map. -/
theorem claim_C4 {V : Type} (t : String) (p : List (String × V))
    (h : ('\x7b' : Char) ∉ t.data) :
    replaceNamedParams t = t ∧ extractArgs t p = Except.ok [] := by
  constructor
  · have hrepl := replaceChars_of_no_open t.data h 1
    have : String.mk t.data = t := rfl
    rw [replaceNamedParams, hrepl, this]
  · simp [extractArgs, paramNames, scanNames_of_no_open t.data h, collectArgs]

/-- Witness for claim C4 at the spec's example template. -/
theorem claim_C4_witness :
    replaceNamedParams "SELECT * FROM t" = "SELECT * FROM t" ∧
    extractArgs (V := Nat) "SELECT * FROM t" [] = Except.ok [] :=
  claim_C4 "SELECT * FROM t" [] (by decide)

/-- Claim C5: an unterminated trailing fragment opened by a brace with no
following closing brace contributes no placeholder name and no argument, and
cannot cause a missing-parameter error: extraction behaves exactly as on the
template without the fragment. -/
theorem claim_C5 {V : Type} (u frag : String) (p : List (String × V))
    (h : ('\x7d' : Char) ∉ frag.data) :
    paramNames (u ++ "\x7b" ++ frag) = paramNames u ∧
    extractArgs (u ++ "\x7b" ++ frag) p = extractArgs u p := by
  have hnames : paramNames (u ++ "\x7b" ++ frag) = paramNames u := by
    unfold paramNames
    rw [data_stray]
    exact scanNames_stray u.data frag.data false "" h
  exact ⟨hnames, by simp [extractArgs, hnames]⟩

/-- Witness for claim C5: a concrete template with an unterminated fragment
whose name is absent from the map still extracts successfully. -/
theorem claim_C5_witness :
    (extractArgs ("SELECT \x7ba\x7d" ++ "\x7b" ++ "oops") [("a", (5 : Nat))] =
      extractArgs "SELECT \x7ba\x7d" [("a", (5 : Nat))]) ∧
    extractArgs "SELECT \x7ba\x7d" [("a", (5 : Nat))] = Except.ok [5] :=
  ⟨(claim_C5 "SELECT \x7ba\x7d" "oops" [("a", 5)] (by decide)).2, rfl⟩

/-- Claim C10 (amended to a single stray opening brace after a well-formed
prefix, with a brace-free tail): the translator emits the positional marker
for the stray brace the moment it is seen, drops every following character,
and the translated statement carries exactly one more marker than
`extractArgs` returns values. -/
theorem claim_C10 {V : Type} (u frag : String) (p : List (String × V))
    (hu : wellFormed u = true)
    (hf : ∀ c ∈ frag.data, c ≠ '\x7b' ∧ c ≠ '\x7d') :
    replaceNamedParams (u ++ "\x7b" ++ frag) =
      replaceNamedParams u ++ ("$" ++ toString (u.data.count '\x7b' + 1)) ∧
    markerList (u ++ "\x7b" ++ frag) = markerList u ++ [u.data.count '\x7b' + 1] ∧
    ∀ args, extractArgs (u ++ "\x7b" ++ frag) p = Except.ok args →
      (markerList (u ++ "\x7b" ++ frag)).length = args.length + 1 := by
  have hone : (1 : Nat) + u.data.count '\x7b' = u.data.count '\x7b' + 1 := Nat.add_comm 1 _
  have hrepl : replaceNamedParams (u ++ "\x7b" ++ frag) =
      replaceNamedParams u ++ ("$" ++ toString (u.data.count '\x7b' + 1)) := by
    unfold replaceNamedParams
    rw [data_stray, replaceChars_stray u.data frag.data false 1 hu hf, hone]
  have hmk : markerList (u ++ "\x7b" ++ frag) = markerList u ++ [u.data.count '\x7b' + 1] := by
    unfold markerList piecesOf
    rw [data_stray, pieceChars_stray u.data frag.data false 1 hu hf,
      List.filterMap_append, hone]
    simp [markerNum]
  refine ⟨hrepl, hmk, ?_⟩
  intro args hargs
  have hclose : ('\x7d' : Char) ∉ frag.data := fun hc => ((hf _ hc).2) rfl
  have hnames : paramNames (u ++ "\x7b" ++ frag) = paramNames u := by
    unfold paramNames
    rw [data_stray]
    exact scanNames_stray u.data frag.data false "" hclose
  have hargslen : args.length = (paramNames u).length := by
    have := collectArgs_ok_length (paramNames (u ++ "\x7b" ++ frag)) p args hargs
    rwa [hnames] at this
  have hcount : (paramNames u).length = u.data.count '\x7b' := paramNames_length_of_wf u hu
  have hulen : (markerList u).length = u.data.count '\x7b' := by
    rw [markerList_eq_range', List.length_range']
  rw [hmk, List.length_append, hulen, hargslen, hcount]
  rfl

/-- Witness for claim C10 at a concrete stray-brace template. -/
theorem claim_C10_witness :
    (replaceNamedParams ("x=\x7ba\x7d" ++ "\x7b" ++ "y") =
      replaceNamedParams "x=\x7ba\x7d" ++
        ("$" ++ toString (("x=\x7ba\x7d" : String).data.count '\x7b' + 1))) ∧
    replaceNamedParams ("x=\x7ba\x7d" ++ "\x7b" ++ "y") = "x=$1$2" := by
  have h := claim_C10 (V := Nat) "x=\x7ba\x7d" "y" [] (by decide) (by decide)
  exact ⟨h.1, by decide⟩

/-- Counterexample to claim C10 as stated: the template of two consecutive
opening braces (each with no matching close) yields two markers while
`extractArgs` returns zero values, not one fewer. -/
theorem claim_C10_counterexample :
    extractArgs (V := Nat) "\x7b\x7b" [] = Except.ok [] ∧
    markerList "\x7b\x7b" = [1, 2] ∧
    replaceNamedParams "\x7b\x7b" = "$1$2" ∧
    (markerList "\x7b\x7b").length ≠ ([] : List Nat).length + 1 :=
  ⟨rfl, rfl, rfl, by decide⟩

/-- A column mapping entry as used from `adapter.Operation`: pairs an
object-side field name (`ObjectField`) with a data-side column name
(`DataField`). -/
structure Mapping where
  objectField : String
  dataField : String
deriving DecidableEq

/-- The fields of `adapter.Operation` the adapter reads: the statement (a table
name for inserts, a template otherwise), the ordered column mappings
(`Properties`), the generated-column mappings (`Generated`) and the multi-row
flag (`Multi`). -/
structure Operation where
  statement : String
  properties : List Mapping
  generated : List Mapping
  multi : Bool

/-- `strings.Join(xs, ", ")`. -/
def joinComma (xs : List String) : String := String.intercalate ", " xs

/-- A statement issued to the database driver: query text plus positional
argument vector. -/
structure Issued (V : Type) where
  query : String
  args : List V

/-- Inner loop of `insertBulk` (adapter.go lines 246-250): one row's
placeholders and values, threading the running parameter index. -/
def rowPlaceholders {V : Type} : List Mapping → List (String × V) → Nat →
    List String × List (Option V) × Nat
  | [], _, idx => ([], [], idx)
  | prop :: rest, obj, idx =>
    let r := rowPlaceholders rest obj (idx + 1)
    (("$" ++ toString idx) :: r.1, lookupParam obj prop.objectField :: r.2.1, r.2.2)

/-- Outer loop of `insertBulk` (adapter.go lines 243-252): per-row value tuples
and the flattened argument vector, with the parameter index running across the
whole batch. -/
def bulkRows {V : Type} (props : List Mapping) :
    List (List (String × V)) → Nat → List String × List (Option V)
  | [], _ => ([], [])
  | obj :: rest, idx =>
    let r := rowPlaceholders props obj idx
    let rs := bulkRows props rest r.2.2
    (("(" ++ joinComma r.1 ++ ")") :: rs.1, r.2.1 ++ rs.2)

/-- The statement built by `insertBulk` (adapter.go lines 254-257). -/
def insertBulkQuery {V : Type} (table : String) (props : List Mapping)
    (objs : List (List (String × V))) : String :=
  "INSERT INTO " ++ table ++ " (" ++ joinComma (props.map Mapping.dataField) ++
    ") VALUES " ++ joinComma (bulkRows props objs 1).1

/-- The argument vector passed by `insertBulk` (adapter.go line 259). -/
def insertBulkArgs {V : Type} (props : List Mapping)
    (objs : List (List (String × V))) : List (Option V) :=
  (bulkRows props objs 1).2

/-- Closed form of one row's placeholders. -/
theorem rowPlaceholders_fst {V : Type} (props : List Mapping) (obj : List (String × V)) :
    ∀ idx, (rowPlaceholders props obj idx).1 =
      (List.range' idx props.length).map (fun k => "$" ++ toString k) := by
  induction props with
  | nil => intro idx; simp [rowPlaceholders, List.range']
  | cons prop rest ih => intro idx; simp [rowPlaceholders, ih, List.range']

/-- Closed form of one row's values: the row's values in mapping order. -/
theorem rowPlaceholders_vals {V : Type} (props : List Mapping) (obj : List (String × V)) :
    ∀ idx, (rowPlaceholders props obj idx).2.1 =
      props.map (fun pr => lookupParam obj pr.objectField) := by
  induction props with
  | nil => intro idx; simp [rowPlaceholders]
  | cons prop rest ih => intro idx; simp [rowPlaceholders, ih]

/-- The parameter index advances by the column count over one row. -/
theorem rowPlaceholders_idx {V : Type} (props : List Mapping) (obj : List (String × V)) :
    ∀ idx, (rowPlaceholders props obj idx).2.2 = idx + props.length := by
  induction props with
  | nil => intro idx; simp [rowPlaceholders]
  | cons prop rest ih => intro idx; simp [rowPlaceholders, ih]; omega

/-- Closed form of the bulk VALUES tuples: row `i` of `n`-column rows uses the
consecutive markers `idx + i*n .. idx + i*n + n - 1`. -/
theorem bulkRows_fst {V : Type} (props : List Mapping) (objs : List (List (String × V))) :
    ∀ idx, (bulkRows props objs idx).1 =
      (List.range objs.length).map (fun i =>
        "(" ++ joinComma ((List.range' (idx + i * props.length) props.length).map
          (fun k => "$" ++ toString k)) ++ ")") := by
  induction objs with
  | nil => intro idx; simp [bulkRows]
  | cons obj rest ih =>
    intro idx
    simp only [bulkRows, rowPlaceholders_fst, rowPlaceholders_idx, ih,
      List.length_cons, List.range_succ_eq_map, List.map_cons, List.map_map]
    congr 1
    · simp
    · refine List.map_congr_left ?_
      intro i _
      have harith : idx + props.length + i * props.length =
          idx + (i + 1) * props.length := by ring
      simp [Function.comp, harith]

/-- Closed form of the bulk argument vector: the rows' values flattened in row
order, each row in mapping order. -/
theorem bulkRows_snd {V : Type} (props : List Mapping) (objs : List (List (String × V))) :
    ∀ idx, (bulkRows props objs idx).2 =
      (objs.map (fun obj => props.map (fun pr => lookupParam obj pr.objectField))).flatten := by
  induction objs with
  | nil => intro idx; simp [bulkRows]
  | cons obj rest ih =>
    intro idx
    simp [bulkRows, rowPlaceholders_vals, ih]

/-- Claim C6: for every non-empty batch with no generated columns, the bulk
insert builds one `INSERT INTO table (cols) VALUES (row1), (row2), ...`
statement with columns in mapping order, placeholders numbered continuously
across the whole batch starting at `$1`, and the argument vector is the rows'
values flattened in the same global order as the placeholders. -/
theorem claim_C6 {V : Type} (table : String) (props : List Mapping)
    (objs : List (List (String × V))) (hne : objs ≠ []) :
    insertBulkQuery table props objs =
      "INSERT INTO " ++ table ++ " (" ++ joinComma (props.map Mapping.dataField) ++
        ") VALUES " ++ joinComma ((List.range objs.length).map (fun i =>
          "(" ++ joinComma ((List.range' (1 + i * props.length) props.length).map
            (fun k => "$" ++ toString k)) ++ ")")) ∧
    insertBulkArgs props objs =
      (objs.map (fun obj => props.map (fun pr => lookupParam obj pr.objectField))).flatten :=
  ⟨by rw [insertBulkQuery, bulkRows_fst props objs 1],
   by rw [insertBulkArgs, bulkRows_snd props objs 1]⟩

/-- Witness for claim C6: the spec's two-row `[name, email]` example. -/
theorem claim_C6_witness :
    insertBulkQuery "users" [⟨"name", "name"⟩, ⟨"email", "email"⟩]
        [[("name", "a1"), ("email", "a2")], [("name", "b1"), ("email", "b2")]] =
      "INSERT INTO users (name, email) VALUES ($1, $2), ($3, $4)" ∧
    insertBulkArgs [⟨"name", "name"⟩, ⟨"email", "email"⟩]
        [[("name", "a1"), ("email", "a2")], [("name", "b1"), ("email", "b2")]] =
      [some "a1", some "a2", some "b1", some "b2"] := by
  have h := claim_C6 "users" [⟨"name", "name"⟩, ⟨"email", "email"⟩]
    [[("name", "a1"), ("email", "a2")], [("name", "b1"), ("email", "b2")]] (by decide)
  exact ⟨h.1.trans (by decide), h.2.trans (by decide)⟩

/-- The statement built by `insertWithReturning` for one row (adapter.go lines
196-207): placeholders restart at `$1` for every row and the RETURNING columns
are the generated mappings' data-side names in mapping order. -/
def insertReturningQuery (table : String) (props gens : List Mapping) : String :=
  "INSERT INTO " ++ table ++ " (" ++ joinComma (props.map Mapping.dataField) ++
    ") VALUES (" ++
    joinComma ((List.range props.length).map (fun i => "$" ++ toString (i + 1))) ++
    ") RETURNING " ++ joinComma (gens.map Mapping.dataField)

/-- The per-row argument vector of `insertWithReturning` (adapter.go line
200): the row's values at the object-side field names, in mapping order. -/
def returningValues {V : Type} (props : List Mapping) (obj : List (String × V)) :
    List (Option V) :=
  props.map (fun prop => lookupParam obj prop.objectField)

/-- Go map assignment `obj[k] = v` on the association-list model: replace the
existing binding or append a new one. -/
def setField {V : Type} : List (String × V) → String → V → List (String × V)
  | [], k, v => [(k, v)]
  | (k2, v2) :: rest, k, v =>
    if k2 = k then (k, v) :: rest else (k2, v2) :: setField rest k v

/-- Write-back loop of `insertWithReturning` (adapter.go lines 221-224): the
scanned generated values are assigned into the row object at the object-side
field names of the generated mappings, positionally in mapping order. -/
def writeBack {V : Type} : List Mapping → List V → List (String × V) → List (String × V)
  | g :: gs, v :: vs, obj => writeBack gs vs (setField obj g.objectField v)
  | _, _, obj => obj

/-- Per-row loop of `insertWithReturning` (adapter.go lines 194-225), the
driver call modelled as an oracle mapping each issued statement to an error or
the scanned RETURNING values; returns the trace of issued statements and the
updated row objects. -/
def runReturning {V : Type} (table : String) (props gens : List Mapping)
    (dbResp : Issued (Option V) → Except String (List V)) :
    List (List (String × V)) →
      Except String (List (Issued (Option V)) × List (List (String × V)))
  | [] => .ok ([], [])
  | obj :: rest =>
    match dbResp ⟨insertReturningQuery table props gens, returningValues props obj⟩ with
    | .error e => .error ("postgresql: insert with returning failed: " ++ e)
    | .ok scanned =>
      match runReturning table props gens dbResp rest with
      | .error e => .error e
      | .ok r => .ok (⟨insertReturningQuery table props gens, returningValues props obj⟩ :: r.1,
          writeBack gens scanned obj :: r.2)

/-- `Insert` dispatch (adapter.go lines 163-178) for a connected adapter: an
empty batch short-circuits with no statement and no error; generated columns
select the per-row RETURNING path, otherwise one bulk statement is issued. -/
def insertGo {V : Type} (op : Operation) (objs : List (List (String × V)))
    (dbResp : Issued (Option V) → Except String (List V))
    (dbExec : Issued (Option V) → Except String Nat) :
    Except String (List (Issued (Option V)) × List (List (String × V))) :=
  if objs.length = 0 then .ok ([], objs)
  else if 0 < op.generated.length then
    runReturning op.statement op.properties op.generated dbResp objs
  else
    match dbExec ⟨insertBulkQuery op.statement op.properties objs,
        insertBulkArgs op.properties objs⟩ with
    | .error e => .error ("postgresql: bulk insert failed: " ++ e)
    | .ok _ => .ok ([⟨insertBulkQuery op.statement op.properties objs,
        insertBulkArgs op.properties objs⟩], objs)

/-- Looking a key up after setting it yields the new value. -/
theorem lookupParam_setField_same {V : Type} (obj : List (String × V)) (k : String) (v : V) :
    lookupParam (setField obj k v) k = some v := by
  induction obj with
  | nil => simp [setField, lookupParam]
  | cons kv rest ih =>
    obtain ⟨k2, v2⟩ := kv
    by_cases h : k2 = k
    · simp [setField, h, lookupParam]
    · simp [setField, h, lookupParam, ih]

/-- Setting one key leaves lookups of other keys unchanged. -/
theorem lookupParam_setField_ne {V : Type} (obj : List (String × V)) (k key : String)
    (v : V) (h : key ≠ k) : lookupParam (setField obj k v) key = lookupParam obj key := by
  induction obj with
  | nil => simp [setField, lookupParam, Ne.symm h]
  | cons kv rest ih =>
    obtain ⟨k2, v2⟩ := kv
    by_cases h2 : k2 = k
    · subst h2
      simp [setField, lookupParam, Ne.symm h]
    · simp [setField, h2, lookupParam, ih]

/-- The write-back loop does not touch keys outside the generated object-side
field names. -/
theorem writeBack_preserve {V : Type} (gs : List Mapping) :
    ∀ (vs : List V) (obj : List (String × V)) (key : String),
      key ∉ gs.map Mapping.objectField →
      lookupParam (writeBack gs vs obj) key = lookupParam obj key := by
  induction gs with
  | nil => intro vs obj key _; cases vs <;> simp [writeBack]
  | cons g gs2 ih =>
    intro vs obj key h
    cases vs with
    | nil => simp [writeBack]
    | cons v vs2 =>
      simp only [List.map_cons, List.mem_cons, not_or] at h
      simp [writeBack, ih vs2 _ key h.2, lookupParam_setField_ne _ _ _ _ h.1]

/-- Positional write-back: with pairwise-distinct generated object fields and
one scanned value per generated mapping, the `j`-th generated field of the
updated object holds the `j`-th scanned value. -/
theorem writeBack_lookup {V : Type} (gens : List Mapping) :
    ∀ (s : List V) (obj : List (String × V)),
      (gens.map Mapping.objectField).Nodup → s.length = gens.length →
      ∀ j (hj : j < gens.length),
        lookupParam (writeBack gens s obj) ((gens.get ⟨j, hj⟩).objectField) = s.get? j := by
  induction gens with
  | nil => intro s obj _ _ j hj; simp at hj
  | cons g gs ih =>
    intro s obj hnd hlen j hj
    cases s with
    | nil => simp at hlen
    | cons v vs =>
      simp only [List.map_cons, List.nodup_cons] at hnd
      have hlen2 : vs.length = gs.length := by simpa using hlen
      cases j with
      | zero =>
        simp only [writeBack, List.get]
        rw [writeBack_preserve gs vs _ _ hnd.1, lookupParam_setField_same]
        rfl
      | succ j2 =>
        have hj2 : j2 < gs.length := by simpa using hj
        have := ih vs (setField obj g.objectField v) hnd.2 hlen2 j2 hj2
        simpa [writeBack] using this

/-- Claim C7: with generated columns, each row gets its own
`INSERT INTO table (cols) VALUES ($1,...,$n) RETURNING gencols` statement with
placeholders restarting at `$1` and RETURNING columns in generated-mapping
order; its arguments are that row's values in mapping order, and the scanned
generated values are written back into the row object at the object-side field
names of the generated mappings, positionally in mapping order. -/
theorem claim_C7 {V : Type} (table : String) (props gens : List Mapping)
    (objs : List (List (String × V)))
    (dbResp : Issued (Option V) → Except String (List V))
    (hnd : (gens.map Mapping.objectField).Nodup)
    (hresp : ∀ obj ∈ objs, ∃ s, dbResp ⟨insertReturningQuery table props gens,
        returningValues props obj⟩ = Except.ok s ∧ s.length = gens.length) :
    ∃ tr objs2, runReturning table props gens dbResp objs = Except.ok (tr, objs2) ∧
      tr.map Issued.query = objs.map (fun _ => "INSERT INTO " ++ table ++ " (" ++
        joinComma (props.map Mapping.dataField) ++ ") VALUES (" ++
        joinComma ((List.range props.length).map (fun i => "$" ++ toString (i + 1))) ++
        ") RETURNING " ++ joinComma (gens.map Mapping.dataField)) ∧
      tr.map Issued.args = objs.map (returningValues props) ∧
      objs2.length = objs.length ∧
      ∀ i (hi : i < objs.length) (s : List V),
        dbResp ⟨insertReturningQuery table props gens,
          returningValues props (objs.get ⟨i, hi⟩)⟩ = Except.ok s →
        objs2.get? i = some (writeBack gens s (objs.get ⟨i, hi⟩)) ∧
        (s.length = gens.length → ∀ j (hj : j < gens.length),
          lookupParam (writeBack gens s (objs.get ⟨i, hi⟩))
            ((gens.get ⟨j, hj⟩).objectField) = s.get? j) := by
  induction objs with
  | nil =>
    exact ⟨[], [], rfl, rfl, rfl, rfl, fun i hi => absurd hi (by simp)⟩
  | cons obj rest ih =>
    obtain ⟨s0, hs0, hs0len⟩ := hresp obj (by simp)
    obtain ⟨tr, objs2, hrun, hq, ha, hlen, hback⟩ :=
      ih (fun o ho => hresp o (List.mem_cons_of_mem obj ho))
    refine ⟨⟨insertReturningQuery table props gens, returningValues props obj⟩ :: tr,
      writeBack gens s0 obj :: objs2, ?_, ?_, ?_, ?_, ?_⟩
    · simp [runReturning, hs0, hrun]
    · simp only [List.map_cons, hq]
      rfl
    · simp [ha]
    · simp [hlen]
    · intro i hi s hs
      cases i with
      | zero =>
        have hss : s = s0 := by
          have := hs
          simp only [List.get] at this
          rw [hs0] at this
          exact (Except.ok.inj this).symm
        subst hss
        refine ⟨by simp, fun hslen j hj => ?_⟩
        exact writeBack_lookup gens s obj hnd hslen j hj
      | succ i2 =>
        have hi2 : i2 < rest.length := by simpa using hi
        have := hback i2 hi2 s (by simpa [List.get] using hs)
        simpa [List.get] using this

/-- Witness for claim C7: one row, one generated `id` column, driver returning
the generated value `7`, which lands in the row object under `id`. -/
theorem claim_C7_witness :
    ∃ tr objs2,
      runReturning "users" [Mapping.mk "name" "name"] [Mapping.mk "id" "id"]
        (fun _ => Except.ok [(7 : Nat)]) [[("name", 1)]] = Except.ok (tr, objs2) ∧
      tr.map Issued.query = ["INSERT INTO users (name) VALUES ($1) RETURNING id"] ∧
      tr.map Issued.args = [[some 1]] ∧
      objs2.get? 0 = some [("name", 1), ("id", 7)] := by
  obtain ⟨tr, objs2, hrun, hq, ha, hlen, hback⟩ :=
    claim_C7 (V := Nat) "users" [Mapping.mk "name" "name"] [Mapping.mk "id" "id"]
      [[("name", 1)]] (fun _ => Except.ok [7]) (by decide) (fun obj _ => ⟨[7], rfl, rfl⟩)
  refine ⟨tr, objs2, hrun, ?_, ?_, ?_⟩
  · rw [hq]; rfl
  · rw [ha]; rfl
  · have hb := hback 0 (by simp) [7] rfl
    rw [hb.1]; rfl

/-- Claim C8: `Insert` with an empty batch returns no error and issues no
statement, regardless of the operation's column or generated mappings and of
the driver's behavior. -/
theorem claim_C8 {V : Type} (op : Operation)
    (dbResp : Issued (Option V) → Except String (List V))
    (dbExec : Issued (Option V) → Except String Nat) :
    insertGo op ([] : List (List (String × V))) dbResp dbExec = Except.ok ([], []) := by
  simp [insertGo]

/-- The error values the adapter surfaces: the `adapter.ErrNotFound` sentinel
or a wrapped message. -/
inductive AdapterError where
  | notFound : AdapterError
  | message : String → AdapterError
deriving DecidableEq

/-- `Fetch` (adapter.go lines 105-160) for a connected adapter, the driver
query modelled as an oracle returning the scanned result rows: an empty result
set with `Multi = false` becomes `ErrNotFound`. -/
def fetchGo {V R : Type} (op : Operation) (params : List (String × V))
    (dbQuery : Issued V → Except String (List R)) : Except AdapterError (List R) :=
  match extractArgs op.statement params with
  | .error e => .error (.message e)
  | .ok args =>
    match dbQuery ⟨replaceNamedParams op.statement, args⟩ with
    | .error e => .error (.message ("postgresql: query failed: " ++ e))
    | .ok results =>
      if results.length = 0 ∧ op.multi = false then .error .notFound
      else .ok results

/-- `Update` loop (adapter.go lines 268-298) for a connected adapter, the exec
call modelled as an oracle returning the affected-row count: a zero count
aborts with `ErrNotFound`. -/
def updateGo {V : Type} (query : String) (objs : List (List (String × V)))
    (dbExec : Issued V → Except String Nat) : Except AdapterError Unit :=
  match objs with
  | [] => .ok ()
  | obj :: rest =>
    match extractArgs query obj with
    | .error e => .error (.message e)
    | .ok args =>
      match dbExec ⟨replaceNamedParams query, args⟩ with
      | .error e => .error (.message ("postgresql: update failed: " ++ e))
      | .ok rowsAffected =>
        if rowsAffected = 0 then .error .notFound
        else updateGo query rest dbExec

/-- Parameter derivation of `Delete` (adapter.go lines 308-313): a map-shaped
identifier is used as the parameter map directly, any other identifier is
wrapped as the single parameter named `id`. -/
def deleteParams {V : Type} : List (String × V) ⊕ V → List (String × V)
  | .inl m => m
  | .inr v => [("id", v)]

/-- `Delete` loop (adapter.go lines 301-337) for a connected adapter, the exec
call modelled as an oracle returning the affected-row count: a zero count
aborts with `ErrNotFound`. -/
def deleteGo {V : Type} (query : String) (ids : List (List (String × V) ⊕ V))
    (dbExec : Issued V → Except String Nat) : Except AdapterError Unit :=
  match ids with
  | [] => .ok ()
  | idv :: rest =>
    match extractArgs query (deleteParams idv) with
    | .error e => .error (.message e)
    | .ok args =>
      match dbExec ⟨replaceNamedParams query, args⟩ with
      | .error e => .error (.message ("postgresql: delete failed: " ++ e))
      | .ok rowsAffected =>
        if rowsAffected = 0 then .error .notFound
        else deleteGo query rest dbExec

/-- When extraction and execution succeed for every object, `Update` returns
`ErrNotFound` exactly when some object's statement affects zero rows. -/
theorem updateGo_notFound_iff {V : Type} (query : String)
    (objs : List (List (String × V))) (dbExec : Issued V → Except String Nat)
    (h : ∀ obj ∈ objs, ∃ args n, extractArgs query obj = Except.ok args ∧
        dbExec ⟨replaceNamedParams query, args⟩ = Except.ok n) :
    (updateGo query objs dbExec = Except.error AdapterError.notFound ↔
      ∃ obj ∈ objs, ∃ args, extractArgs query obj = Except.ok args ∧
        dbExec ⟨replaceNamedParams query, args⟩ = Except.ok 0) := by
  induction objs with
  | nil => simp [updateGo]
  | cons obj rest ih =>
    obtain ⟨args, n, hx, he⟩ := h obj (by simp)
    have hrest := fun o ho => h o (List.mem_cons_of_mem obj ho)
    by_cases hn : n = 0
    · subst hn
      constructor
      · intro _
        exact ⟨obj, by simp, args, hx, he⟩
      · intro _
        simp [updateGo, hx, he]
    · have hstep : updateGo query (obj :: rest) dbExec = updateGo query rest dbExec := by
        simp [updateGo, hx, he, hn]
      rw [hstep, ih hrest]
      constructor
      · rintro ⟨o, ho, a, hxa, hea⟩
        exact ⟨o, List.mem_cons_of_mem obj ho, a, hxa, hea⟩
      · rintro ⟨o, ho, a, hxa, hea⟩
        rcases List.mem_cons.mp ho with rfl | ho2
        · rw [hx] at hxa
          injection hxa with hq
          subst hq
          rw [he] at hea
          injection hea with hn0
          exact absurd hn0 hn
        · exact ⟨o, ho2, a, hxa, hea⟩

/-- When extraction and execution succeed for every identifier, `Delete`
returns `ErrNotFound` exactly when some identifier's statement affects zero
rows. -/
theorem deleteGo_notFound_iff {V : Type} (query : String)
    (ids : List (List (String × V) ⊕ V)) (dbExec : Issued V → Except String Nat)
    (h : ∀ idv ∈ ids, ∃ args n, extractArgs query (deleteParams idv) = Except.ok args ∧
        dbExec ⟨replaceNamedParams query, args⟩ = Except.ok n) :
    (deleteGo query ids dbExec = Except.error AdapterError.notFound ↔
      ∃ idv ∈ ids, ∃ args, extractArgs query (deleteParams idv) = Except.ok args ∧
        dbExec ⟨replaceNamedParams query, args⟩ = Except.ok 0) := by
  induction ids with
  | nil => simp [deleteGo]
  | cons idv rest ih =>
    obtain ⟨args, n, hx, he⟩ := h idv (by simp)
    have hrest := fun o ho => h o (List.mem_cons_of_mem idv ho)
    by_cases hn : n = 0
    · subst hn
      constructor
      · intro _
        exact ⟨idv, by simp, args, hx, he⟩
      · intro _
        simp [deleteGo, hx, he]
    · have hstep : deleteGo query (idv :: rest) dbExec = deleteGo query rest dbExec := by
        simp [deleteGo, hx, he, hn]
      rw [hstep, ih hrest]
      constructor
      · rintro ⟨o, ho, a, hxa, hea⟩
        exact ⟨o, List.mem_cons_of_mem idv ho, a, hxa, hea⟩
      · rintro ⟨o, ho, a, hxa, hea⟩
        rcases List.mem_cons.mp ho with rfl | ho2
        · rw [hx] at hxa
          injection hxa with hq
          subst hq
          rw [he] at hea
          injection hea with hn0
          exact absurd hn0 hn
        · exact ⟨o, ho2, a, hxa, hea⟩

/-- Claim C9: operations affecting zero rows yield the not-found error exactly
when multi-row semantics were not requested — `Fetch` returns `ErrNotFound`
exactly when the result set is empty and `Multi` is false, and `Update` and
`Delete` return `ErrNotFound` exactly when some executed statement reports
zero affected rows. -/
theorem claim_C9 :
    (∀ (V R : Type) (op : Operation) (params : List (String × V))
      (dbQuery : Issued V → Except String (List R)) (args : List V) (results : List R),
      extractArgs op.statement params = Except.ok args →
      dbQuery ⟨replaceNamedParams op.statement, args⟩ = Except.ok results →
      (fetchGo op params dbQuery = Except.error AdapterError.notFound ↔
        results.length = 0 ∧ op.multi = false)) ∧
    (∀ (V : Type) (query : String) (objs : List (List (String × V)))
      (dbExec : Issued V → Except String Nat),
      (∀ obj ∈ objs, ∃ args n, extractArgs query obj = Except.ok args ∧
          dbExec ⟨replaceNamedParams query, args⟩ = Except.ok n) →
      (updateGo query objs dbExec = Except.error AdapterError.notFound ↔
        ∃ obj ∈ objs, ∃ args, extractArgs query obj = Except.ok args ∧
          dbExec ⟨replaceNamedParams query, args⟩ = Except.ok 0)) ∧
    (∀ (V : Type) (query : String) (ids : List (List (String × V) ⊕ V))
      (dbExec : Issued V → Except String Nat),
      (∀ idv ∈ ids, ∃ args n, extractArgs query (deleteParams idv) = Except.ok args ∧
          dbExec ⟨replaceNamedParams query, args⟩ = Except.ok n) →
      (deleteGo query ids dbExec = Except.error AdapterError.notFound ↔
        ∃ idv ∈ ids, ∃ args, extractArgs query (deleteParams idv) = Except.ok args ∧
          dbExec ⟨replaceNamedParams query, args⟩ = Except.ok 0)) := by
  refine ⟨?_, ?_, ?_⟩
  · intro V R op params dbQuery args results hok hq
    by_cases hcond : results.length = 0 ∧ op.multi = false
    · simp [fetchGo, hok, hq, hcond]
    · simp [fetchGo, hok, hq, hcond]
  · intro V query objs dbExec h
    exact updateGo_notFound_iff query objs dbExec h
  · intro V query ids dbExec h
    exact deleteGo_notFound_iff query ids dbExec h

/-- Witness for claim C9: a concrete update whose statement affects zero rows
returns `ErrNotFound`, and a concrete single-row fetch with an empty result
set returns `ErrNotFound`. -/
theorem claim_C9_witness :
    updateGo "UPDATE t SET x = 1 WHERE id = \x7bid\x7d" [[("id", (5 : Nat))]]
      (fun _ => Except.ok 0) = Except.error AdapterError.notFound ∧
    fetchGo (Operation.mk "SELECT * FROM t WHERE id = \x7bid\x7d" [] [] false)
      [("id", (5 : Nat))] (fun _ => Except.ok ([] : List Nat)) =
        Except.error AdapterError.notFound := by
  constructor
  · exact (claim_C9.2.1 Nat "UPDATE t SET x = 1 WHERE id = \x7bid\x7d"
      [[("id", 5)]] (fun _ => Except.ok 0)
      (by intro obj hobj; simp only [List.mem_singleton] at hobj; subst hobj
          exact ⟨[5], 0, rfl, rfl⟩)).mpr
      ⟨[("id", 5)], by simp, [5], rfl, rfl⟩
  · exact (claim_C9.1 Nat Nat (Operation.mk "SELECT * FROM t WHERE id = \x7bid\x7d" [] [] false)
      [("id", 5)] (fun _ => Except.ok []) [5] [] rfl rfl).mpr ⟨rfl, rfl⟩

end PgAdapter
